import Mathlib

/-
Shallow embedding of the species algebra and reaction-query layer of the
permm repository (src/src/permm/core/Species.py and src/src/perm/Mechanism.py).

Python dictionaries are modelled as association lists (List (String × _))
with first-match lookup; Python sets of names are modelled as Finset String;
the role set (a subset of the characters r, p, u) is modelled as a record of
three booleans; numeric values are modelled as rationals.
Fallible operations (raising KeyError, TypeError, ValueError, SyntaxError or
NameError in Python) return Except Err.
-/

namespace Permm

/-- Error taxonomy of the embedded operations.  lookupFailure models KeyError,
invalidOperand models TypeError, emptyResult models the ValueError raised by
species_sum, syntaxError and nameError model the exceptions Python eval raises
on an empty expression and on an unknown identifier. -/
inductive Err where
  | lookupFailure
  | invalidOperand
  | emptyResult
  | syntaxError
  | nameError
deriving DecidableEq

/-- A set of role tags, a subset of the Python character set from the string
rup: r (reactant), p (product), u (unspecified). -/
structure RoleSet where
  r : Bool
  p : Bool
  u : Bool
deriving DecidableEq

/-- Set union of two role sets, modelling Python set.update / set union. -/
def RoleSet.union (a b : RoleSet) : RoleSet :=
  ⟨a.r || b.r, a.p || b.p, a.u || b.u⟩

/-- Set inclusion test of role sets, modelling Python set.issubset. -/
def RoleSet.subset (a b : RoleSet) : Bool :=
  (!a.r || b.r) && (!a.p || b.p) && (!a.u || b.u)

/-- The empty role set, Python set(). -/
def RoleSet.none : RoleSet := ⟨false, false, false⟩

/-- The full role set, Python set of the characters of the string rup, the
default role assigned by the Species constructor. -/
def RoleSet.full : RoleSet := ⟨true, true, true⟩

/-- First-match lookup in an association list, modelling Python dict
indexing (keys of a Python dict are unique, so first match is the match). -/
def alookup {α : Type} : List (String × α) → String → Option α
  | [], _ => Option.none
  | e :: es, k => if e.1 = k then some e.2 else alookup es k

/-- Lookup with a numeric default of zero, modelling dict.get(k, 0). -/
def alookupD (m : List (String × ℚ)) (k : String) : ℚ :=
  (alookup m k).getD 0

/-- The key set of an association list, modelling dict.keys() viewed as a set. -/
def dictKeys {α : Type} (m : List (String × α)) : Finset String :=
  (m.map Prod.fst).toFinset

/-- Assign a value to a key, modelling Python dict item assignment: an existing
key keeps its position in insertion order, a new key is appended at the end. -/
def dictSet {α : Type} (m : List (String × α)) (k : String) (v : α) : List (String × α) :=
  if (alookup m k).isSome then
    m.map (fun e => if e.1 = k then (e.1, v) else e)
  else
    m ++ [(k, v)]

/-- Pointwise accumulation of atom counts, modelling the loop in species_sum
that does outatoms[atom] += value with a fallback assignment when the key is
absent (src/src/permm/core/Species.py lines 305-309). -/
def atomsAdd (out inp : List (String × ℚ)) : List (String × ℚ) :=
  inp.foldl
    (fun acc e =>
      match alookup acc e.1 with
      | some v => dictSet acc e.1 (v + e.2)
      | Option.none => acc ++ [(e.1, e.2)])
    out

/-- Merge of two atom dictionaries, modelling deepcopy(a) followed by
a.update(b): values of b win on key collision, keys of a keep their position,
new keys of b are appended (Species.__getitem__ lines 96-97). -/
def dictUpdate (a b : List (String × ℚ)) : List (String × ℚ) :=
  (a.map fun e =>
    match alookup b e.1 with
    | some v => (e.1, v)
    | Option.none => e)
    ++ b.filter (fun e => (alookup a e.1).isNone)

/-- The record stored for one component of a Species: a stoichiometric
coefficient, a role set and an atom-count dictionary.  The Species constructor
normalizes every component to carry all three fields (stoic defaults to 1,
role to the full set, atoms to the empty dictionary), which this total record
type captures. -/
structure SpcProps where
  stoic : ℚ
  role : RoleSet
  atoms : List (String × ℚ)
deriving DecidableEq

/-- The component dictionary of a Species: component name to properties. -/
abbrev SpcDict := List (String × SpcProps)

/-- The Species entity of src/src/permm/core/Species.py: a display name, the
complement marker exclude, and the component dictionary spc_dict. -/
structure Species where
  name : String
  exclude : Bool
  spc_dict : SpcDict
deriving DecidableEq

/-- Name auto-synthesis of Species.__init__ when no name is given: the keys
joined by a plus sign, or prefixed and joined by a minus sign when exclude is
set (lines 74-76). -/
def defaultName (d : SpcDict) (exclude : Bool) : String :=
  (if exclude then "-" else "") ++
    String.intercalate (if exclude then "-" else "+") (d.map Prod.fst)

/-- Construction of a Species from a component dictionary, an optional name
and the exclude flag, modelling Species.__init__ on a dict argument. -/
def mkSpecies (d : SpcDict) (name : Option String) (exclude : Bool) : Species :=
  { name := name.getD (defaultName d exclude), exclude := exclude, spc_dict := d }

/-- The component-name set of a Species, modelling Species.names() viewed as a
set. -/
def Species.keys (s : Species) : Finset String :=
  dictKeys s.spc_dict

/-- Species.__neg__ (line 104-105): a Species with the same component
dictionary, the name wrapped in a minus and parentheses, and exclude set to
True unconditionally. -/
def Species.neg (s : Species) : Species :=
  mkSpecies s.spc_dict (some ("-(" ++ s.name ++ ")")) true

/-- A Python value appearing as the right operand of Species.__mul__: either a
number or any non-numeric object. -/
inductive PyVal where
  | num (k : ℚ)
  | obj (tag : String)

/-- Species.__mul__ (lines 139-150): for a numeric operand every stoic is
multiplied by the operand, the name is rewritten and exclude becomes the truth
value of k ≤ 0; for any non-numeric operand a TypeError is raised. -/
def Species.mul (s : Species) (y : PyVal) : Except Err Species :=
  match y with
  | PyVal.num k =>
      Except.ok (mkSpecies
        (s.spc_dict.map (fun e => (e.1, { e.2 with stoic := e.2.stoic * k })))
        (some (s.name ++ " * " ++ toString k))
        (decide (k ≤ 0)))
  | PyVal.obj _ => Except.error Err.invalidOperand

/-- Species.__rmul__ (lines 136-137) delegates to Species.__mul__. -/
def Species.rmul (y : PyVal) (s : Species) : Except Err Species :=
  s.mul y

/-- Species.__getitem__ on a Species probe (lines 89-102): every probe
component present in self whose probe role set is a subset of the stored role
set produces an output component with multiplied stoic, the probe atoms
overridden by the stored atoms, and the probe role; a KeyError is raised when
no probe component qualifies; otherwise a new Species is built with no
explicit name and the exclude flag of the probe. -/
def Species.getitem (self : Species) (probe : Species) : Except Err Species :=
  let out : SpcDict := probe.spc_dict.filterMap (fun e =>
    match alookup self.spc_dict e.1 with
    | some cp =>
        if e.2.role.subset cp.role then
          some (e.1,
            { stoic := e.2.stoic * cp.stoic
              role := e.2.role
              atoms := dictUpdate e.2.atoms cp.atoms })
        else Option.none
    | Option.none => Option.none)
  if out.isEmpty then Except.error Err.lookupFailure
  else Except.ok (mkSpecies out Option.none probe.exclude)

/-- Species.__getitem__ on a string key (lines 86-88): the key is wrapped into
a single-component probe with stoic 1, the full role set, no atoms and the
default exclude flag False, then Species.__getitem__ is applied. -/
def Species.getitemStr (self : Species) (key : String) : Except Err Species :=
  self.getitem (mkSpecies
    [(key, { stoic := 1, role := RoleSet.full, atoms := [] })]
    (some key) false)

/-- The include-name set of species_sum (lines 276-282): the union of the
component names of the operands whose exclude flag is False. -/
def includeNames (l : List Species) : Finset String :=
  l.foldl (fun acc s => if s.exclude then acc else acc ∪ s.keys) ∅

/-- The exclude-name set of species_sum (lines 276-282): the union of the
component names of the operands whose exclude flag is True. -/
def excludeNames (l : List Species) : Finset String :=
  l.foldl (fun acc s => if s.exclude then acc ∪ s.keys else acc) ∅

/-- The default properties record inserted by out_props.setdefault in
species_sum (line 300): stoic 0, empty role set, empty atom dictionary. -/
def zeroProps : SpcProps :=
  { stoic := 0, role := RoleSet.none, atoms := [] }

/-- Accumulation of one input record into one accumulated record, modelling
lines 301-309 of species_sum: stoic is summed, the role sets are unioned, the
atom counts are added per atom symbol. -/
def combineProps (old inp : SpcProps) : SpcProps :=
  { stoic := old.stoic + inp.stoic
    role := old.role.union inp.role
    atoms := atomsAdd old.atoms inp.atoms }

/-- One step of the species_sum accumulation loop for one component entry:
setdefault to zeroProps, then accumulate (lines 300-309). -/
def accumEntry (acc : SpcDict) (n : String) (inp : SpcProps) : SpcDict :=
  dictSet acc n (combineProps ((alookup acc n).getD zeroProps) inp)

/-- The inner loop of species_sum over the component entries of one operand:
entries whose name is outside the final membership set are skipped
(lines 296-309). -/
def accumSpecies (outNames : Finset String) (acc : SpcDict) (s : Species) : SpcDict :=
  s.spc_dict.foldl
    (fun acc2 e => if e.1 ∈ outNames then accumEntry acc2 e.1 e.2 else acc2)
    acc

/-- The local variable out_include_names of species_sum (line 284): the
include set minus the exclude set. -/
def netInclude (l : List Species) : Finset String :=
  includeNames l \ excludeNames l

/-- The local variable out_exclude_names of species_sum (line 285): the
exclude set minus the include set. -/
def netExclude (l : List Species) : Finset String :=
  excludeNames l \ includeNames l

/-- species_sum (lines 272-311): partition the component names by operand
exclude flag, take the two set differences, fail with a ValueError when both
are empty, otherwise accumulate over all operands the entries whose name
survives and build a new Species with no explicit name.  The source assigns
exclude = False in both surviving branches. -/
def species_sum (l : List Species) : Except Err Species :=
  if netInclude l ≠ ∅ then
    Except.ok (mkSpecies (l.foldl (accumSpecies (netInclude l)) []) Option.none false)
  else if netExclude l ≠ ∅ then
    Except.ok (mkSpecies (l.foldl (accumSpecies (netExclude l)) []) Option.none false)
  else
    Except.error Err.emptyResult

/-- Species.__add__ (lines 155-156) delegates to species_sum on the two
operands. -/
def Species.add (a b : Species) : Except Err Species :=
  species_sum [a, b]

/-- Species.__sub__ (lines 152-153) is addition of the negation. -/
def Species.sub (a b : Species) : Except Err Species :=
  a.add b.neg

/-- The external Reaction contract consumed by the query engine
(src/src/perm/Mechanism.py): only the membership predicates has_rct and
has_prd are visible to find_rxns; reaction addition is supplied separately. -/
structure Reaction where
  has_rct : Species → Bool
  has_prd : Species → Bool

/-- The reaction dictionary of a Mechanism: reaction name to Reaction. -/
abbrev RxnDict := List (String × Reaction)

/-- Mechanism.find_rxns (src/src/perm/Mechanism.py lines 171-211): the
reactant result keeps the reaction names whose reaction satisfies has_rct for
every listed reactant (all names when the list is empty), symmetrically for
products with has_prd; the two partial results are combined by set
intersection when logical_and is true and by set union otherwise, and the
final set is returned as a sorted list. -/
def find_rxns (reaction_dict : RxnDict) (reactants products : List Species)
    (logical_and : Bool) : List String :=
  let reactant_result :=
    if reactants ≠ [] then
      (reaction_dict.filter (fun e => reactants.all (fun rct => e.2.has_rct rct))).map Prod.fst
    else
      reaction_dict.map Prod.fst
  let product_result :=
    if products ≠ [] then
      (reaction_dict.filter (fun e => products.all (fun prd => e.2.has_prd prd))).map Prod.fst
    else
      reaction_dict.map Prod.fst
  let combined :=
    if logical_and then
      reactant_result.filter (fun n => product_result.contains n)
    else
      reactant_result ++ product_result
  List.insertionSort (· ≤ ·) combined.dedup

/-- Identifier resolution during Mechanism.__call__: a name evaluates to the
reaction stored under it, an unknown name raises a NameError. -/
def lookupRxn (env : RxnDict) (n : String) : Except Err Reaction :=
  match alookup env n with
  | some r => Except.ok r
  | Option.none => Except.error Err.nameError

/-- Left-associated evaluation of the remaining terms of an expression
name1 + name2 + ..., with radd standing for the external Reaction.__add__. -/
def evalSumAux (radd : Reaction → Reaction → Reaction) (env : RxnDict) :
    Reaction → List String → Except Err Reaction
  | acc, [] => Except.ok acc
  | acc, n :: ns =>
      match lookupRxn env n with
      | Except.ok r => evalSumAux radd env (radd acc r) ns
      | Except.error e => Except.error e

/-- Evaluation of the joined expression built by make_net_rxn: Python eval on
the empty string (the join of no names) raises a SyntaxError; otherwise the
names are resolved and summed left to right with the external Reaction
addition. -/
def evalSumExpr (radd : Reaction → Reaction → Reaction) (env : RxnDict) :
    List String → Except Err Reaction
  | [] => Except.error Err.syntaxError
  | n :: ns =>
      match lookupRxn env n with
      | Except.ok r => evalSumAux radd env r ns
      | Except.error e => Except.error e

/-- Mechanism.make_net_rxn (lines 227-237): query with find_rxns, join the
matched names with plus signs and evaluate the resulting expression against
the mechanism environment. -/
def make_net_rxn (radd : Reaction → Reaction → Reaction) (reaction_dict : RxnDict)
    (reactants products : List Species) (logical_and : Bool) : Except Err Reaction :=
  evalSumExpr radd reaction_dict (find_rxns reaction_dict reactants products logical_and)

/-- Digits read greedily up to a bound, modelling the regex piece d repeated
one to ten times; returns the digits read and the rest of the input. -/
def takeDigits : Nat → List Char → List Char × List Char
  | 0, s => ([], s)
  | _ + 1, [] => ([], [])
  | k + 1, c :: s =>
      if c.isDigit then
        let (d, r) := takeDigits k s
        (c :: d, r)
      else
        ([], c :: s)

/-- Whitespace skipped between an atom symbol and its multiplicity, the
regex piece of zero or more whitespace characters. -/
def dropSpacesChars : List Char → List Char
  | [] => []
  | c :: s => if c.isWhitespace then dropSpacesChars s else c :: s

/-- Numeric value of a digit string. -/
def digitsToNat (ds : List Char) : Nat :=
  ds.foldl (fun n c => 10 * n + (c.toNat - '0'.toNat)) 0

/-- The known atom symbols sorted by decreasing length, modelling the
construction of the alternation in atom_guess (line 29), which sorts
ALL_ATOMS with key minus length; the sort is stable. -/
def sortAtomsDesc (allAtoms : List String) : List String :=
  List.insertionSort (fun a b => b.length ≤ a.length) allAtoms

/-- One attempted regex match at a fixed position for atom_guess: the
alternatives are tried in order; an alternative succeeds only when the atom
symbol is a prefix of the input and, after optional whitespace, at least one
digit follows (the multiplicity group of the source regex requires one to ten
digits).  On success the atom, the multiplicity and the rest of the input are
returned; with backtracking the next alternative is tried. -/
def matchAtomAt (atoms : List (List Char)) (s : List Char) :
    Option (List Char × Nat × List Char) :=
  match atoms with
  | [] => Option.none
  | a :: rest =>
      if a.isPrefixOf s then
        let afterSpace := dropSpacesChars (s.drop a.length)
        let (ds, r) := takeDigits 10 afterSpace
        if ds.isEmpty then matchAtomAt rest s
        else some (a, digitsToNat ds, r)
      else matchAtomAt rest s

/-- Left-to-right scan of re.findall for the atom_guess regex: at each
position the first match is taken and the scan resumes after it, otherwise
the scan advances one character.  The fuel argument bounds the recursion by
the input length, which suffices because every step consumes at least one
character. -/
def scanAtoms (atoms : List (List Char)) : Nat → List Char → List (List Char × Nat)
  | 0, _ => []
  | _ + 1, [] => []
  | fuel + 1, c :: rest =>
      match matchAtomAt atoms (c :: rest) with
      | some (a, m, r) => (a, m) :: scanAtoms atoms fuel r
      | Option.none => scanAtoms atoms fuel rest

/-- The regex-scan branch of atom_guess (src/src/permm/core/Species.py lines
26-43), the branch taken when the species name contains no plus sign and does
not start with a digit (the other branch delegates to atom_parse and is
outside the scope of the claims).  The matches are accumulated into an atom
dictionary with setdefault 0 followed by addition of the multiplicity. -/
def atom_guess_scan (allAtoms : List String) (spcName : String) : List (String × Nat) :=
  let atre := (sortAtomsDesc allAtoms).map String.toList
  let found := scanAtoms atre spcName.length spcName.toList
  found.foldl
    (fun acc e =>
      match alookup acc (String.mk e.1) with
      | some v => dictSet acc (String.mk e.1) (v + e.2)
      | Option.none => acc ++ [(String.mk e.1, e.2)])
    []

/-- Modelled from the spec: the scan described in section 4.1, in which each
atom-symbol occurrence is optionally followed by a multiplicity digit string
defaulting to 1 when absent.  This definition follows the words of the spec
and is compared against atom_guess_scan, which embeds the source. -/
def matchAtomSpec (atoms : List (List Char)) (s : List Char) :
    Option (List Char × Nat × List Char) :=
  match atoms with
  | [] => Option.none
  | a :: rest =>
      if a ≠ [] ∧ a.isPrefixOf s then
        let (ds, r) := takeDigits 10 (s.drop a.length)
        if ds.isEmpty then some (a, 1, s.drop a.length)
        else some (a, digitsToNat ds, r)
      else matchAtomSpec rest s

/-- Modelled from the spec: scan driver for matchAtomSpec, structured like
scanAtoms. -/
def scanAtomsSpec (atoms : List (List Char)) : Nat → List Char → List (List Char × Nat)
  | 0, _ => []
  | _ + 1, [] => []
  | fuel + 1, c :: rest =>
      match matchAtomSpec atoms (c :: rest) with
      | some (a, m, r) => (a, m) :: scanAtomsSpec atoms fuel r
      | Option.none => scanAtomsSpec atoms fuel rest

/-- Modelled from the spec: the atom-guess behavior claimed in section 4.1,
with the multiplicity digit string optional and defaulting to 1. -/
def atom_guess_spec (allAtoms : List String) (spcName : String) : List (String × Nat) :=
  let atre := (sortAtomsDesc allAtoms).map String.toList
  let found := scanAtomsSpec atre spcName.length spcName.toList
  found.foldl
    (fun acc e =>
      match alookup acc (String.mk e.1) with
      | some v => dictSet acc (String.mk e.1) (v + e.2)
      | Option.none => acc ++ [(String.mk e.1, e.2)])
    []

/-- Well-formedness of a component dictionary as the image of a Python dict:
the component keys are distinct and so are the atom keys of every component. -/
def dictWF (d : SpcDict) : Prop :=
  (d.map Prod.fst).Nodup ∧ ∀ e ∈ d, (e.2.atoms.map Prod.fst).Nodup

/-- Well-formedness of a Species: its component dictionary is well-formed. -/
def Species.WF (s : Species) : Prop :=
  dictWF s.spc_dict

instance (d : SpcDict) : Decidable (dictWF d) :=
  show Decidable ((d.map Prod.fst).Nodup ∧ ∀ e ∈ d, (e.2.atoms.map Prod.fst).Nodup)
    from inferInstance

instance (s : Species) : Decidable s.WF :=
  show Decidable (dictWF s.spc_dict) from inferInstance

/-- The stoic a component dictionary records for a name, zero when absent. -/
def obsStoic (m : SpcDict) (n : String) : ℚ :=
  ((alookup m n).map SpcProps.stoic).getD 0

/-- The role set a component dictionary records for a name, empty when
absent. -/
def obsRole (m : SpcDict) (n : String) : RoleSet :=
  ((alookup m n).map SpcProps.role).getD RoleSet.none

/-- The atom count a component dictionary records for a name and an atom
symbol, zero when absent. -/
def obsAtom (m : SpcDict) (n : String) (a : String) : ℚ :=
  match alookup m n with
  | some pr => alookupD pr.atoms a
  | Option.none => 0

/-- The stoic contributed by one operand for one component name: the stored
stoic when the operand contains the name, zero otherwise. -/
def stoicAt (s : Species) (n : String) : ℚ :=
  obsStoic s.spc_dict n

/-- The role set contributed by one operand for one component name. -/
def roleAt (s : Species) (n : String) : RoleSet :=
  obsRole s.spc_dict n

/-- The atom count contributed by one operand for one component name and one
atom symbol. -/
def atomAt (s : Species) (n : String) (a : String) : ℚ :=
  obsAtom s.spc_dict n a

/-- The concrete OH species of the source test suite (SpeciesTestCase.setUp). -/
def OHspc : Species :=
  { name := "OH", exclude := false
    spc_dict := [("OH", { stoic := 1, role := RoleSet.full, atoms := [("H", 1), ("O", 1)] })] }

/-- The concrete HO2 species of the source test suite. -/
def HO2spc : Species :=
  { name := "HO2", exclude := false
    spc_dict := [("HO2", { stoic := 1, role := RoleSet.full, atoms := [("H", 1), ("O", 2)] })] }

/-- The concrete HOx species of the source test suite, the aggregate of OH and
HO2. -/
def HOxspc : Species :=
  { name := "HOx", exclude := false
    spc_dict := [("OH", { stoic := 1, role := RoleSet.full, atoms := [("H", 1), ("O", 1)] }),
                 ("HO2", { stoic := 1, role := RoleSet.full, atoms := [("H", 1), ("O", 2)] })] }

/-- A concrete excluding Species over the OH component dictionary, used to
exercise the operators on an operand whose exclude flag is already set. -/
def OHexc : Species :=
  { name := "OHexc", exclude := true
    spc_dict := [("OH", { stoic := 1, role := RoleSet.full, atoms := [("H", 1), ("O", 1)] })] }

/-- A concrete Reaction whose membership predicates always fail, standing for
a reaction that matches no query. -/
def rxnNone : Reaction :=
  { has_rct := fun _ => false, has_prd := fun _ => false }

/-- A concrete Reaction that has OH as a reactant, judged by the species
name. -/
def rxnOH : Reaction :=
  { has_rct := fun s => s.name == "OH", has_prd := fun _ => false }

/-- A concrete stand-in for the external Reaction addition, used to
instantiate the query-engine theorems. -/
def raddLeft : Reaction → Reaction → Reaction := fun a _ => a

/-! Helper lemmas about association-list lookup. -/

@[simp] theorem alookup_nil {α : Type} (k : String) :
    alookup ([] : List (String × α)) k = Option.none := rfl

@[simp] theorem alookup_cons {α : Type} (e : String × α) (es : List (String × α)) (k : String) :
    alookup (e :: es) k = if e.1 = k then some e.2 else alookup es k := rfl

@[simp] theorem mem_dictKeys {α : Type} (m : List (String × α)) (k : String) :
    k ∈ dictKeys m ↔ ∃ v, (k, v) ∈ m := by
  simp only [dictKeys, List.mem_toFinset, List.mem_map]
  constructor
  · rintro ⟨⟨k', v⟩, hmem, rfl⟩
    exact ⟨v, hmem⟩
  · rintro ⟨v, hmem⟩
    exact ⟨(k, v), hmem, rfl⟩

theorem alookup_isSome_iff {α : Type} (m : List (String × α)) (k : String) :
    (alookup m k).isSome ↔ k ∈ dictKeys m := by
  induction m with
  | nil => simp
  | cons e es ih =>
      by_cases h : e.1 = k
      · subst h
        simp [Prod.ext_iff]
      · simp only [alookup_cons, if_neg h, ih, mem_dictKeys]
        constructor
        · rintro ⟨v, hv⟩
          exact ⟨v, List.mem_cons_of_mem _ hv⟩
        · rintro ⟨v, hv⟩
          rcases List.mem_cons.mp hv with h' | h'
          · exact absurd (congrArg Prod.fst h').symm h
          · exact ⟨v, h'⟩

theorem alookup_eq_none_iff {α : Type} (m : List (String × α)) (k : String) :
    alookup m k = Option.none ↔ k ∉ dictKeys m := by
  rw [← alookup_isSome_iff]
  cases alookup m k <;> simp

theorem alookup_append {α : Type} (m m' : List (String × α)) (k : String) :
    alookup (m ++ m') k =
      match alookup m k with
      | some v => some v
      | Option.none => alookup m' k := by
  induction m with
  | nil => simp
  | cons e es ih =>
      by_cases h : e.1 = k <;> simp [h, ih]

theorem alookup_some_mem {α : Type} {m : List (String × α)} {k : String} {v : α}
    (h : alookup m k = some v) : (k, v) ∈ m := by
  induction m with
  | nil => simp at h
  | cons e es ih =>
      by_cases h' : e.1 = k
      · rw [alookup_cons, if_pos h'] at h
        cases h
        rw [← h']
        exact List.mem_cons_self _ _
      · rw [alookup_cons, if_neg h'] at h
        exact List.mem_cons_of_mem _ (ih h)

theorem alookup_of_mem_nodup {α : Type} {m : List (String × α)} {k : String} {v : α}
    (hnd : (m.map Prod.fst).Nodup) (hmem : (k, v) ∈ m) : alookup m k = some v := by
  induction m with
  | nil => simp at hmem
  | cons e es ih =>
      rw [List.map_cons, List.nodup_cons] at hnd
      rcases List.mem_cons.mp hmem with h | h
      · rw [← h]
        simp
      · have hne : e.1 ≠ k := by
          intro hk
          exact hnd.1 (hk ▸ List.mem_map_of_mem Prod.fst h)
        rw [alookup_cons, if_neg hne]
        exact ih hnd.2 h

theorem alookup_map_overwrite {α : Type} (m : List (String × α)) (k : String) (v : α)
    (k' : String) :
    alookup (m.map (fun e => if e.1 = k then (e.1, v) else e)) k' =
      if k' = k then (alookup m k).map (fun _ => v) else alookup m k' := by
  induction m with
  | nil => by_cases h : k' = k <;> simp [h]
  | cons e es ih =>
      by_cases hk' : k' = k
      · subst hk'
        by_cases hek : e.1 = k' <;> simp [hek, ih]
      · have hkk' : ¬ k = k' := fun h => hk' h.symm
        by_cases hek' : e.1 = k'
        · have hek : ¬ e.1 = k := fun h => hk' (hek' ▸ h ▸ rfl)
          simp [hek, hek', hk']
        · by_cases hek : e.1 = k <;> simp [hek, hek', hk', hkk', ih]

theorem alookup_dictSet {α : Type} (m : List (String × α)) (k : String) (v : α) (k' : String) :
    alookup (dictSet m k v) k' = if k' = k then some v else alookup m k' := by
  unfold dictSet
  by_cases hs : (alookup m k).isSome
  · rw [if_pos hs, alookup_map_overwrite]
    rcases Option.isSome_iff_exists.mp hs with ⟨w, hw⟩
    rw [hw]
    by_cases hk' : k' = k <;> simp [hk']
  · rw [if_neg hs, alookup_append]
    have hnone : alookup m k = Option.none := by
      cases h : alookup m k
      · rfl
      · rw [h] at hs
        simp at hs
    by_cases hk' : k' = k
    · subst hk'
      simp [hnone]
    · have hkk' : ¬ k = k' := fun h => hk' h.symm
      cases h : alookup m k' <;> simp [h, hk', hkk']

theorem alookupD_eq_zero_of_not_mem {m : List (String × ℚ)} {a : String}
    (h : a ∉ dictKeys m) : alookupD m a = 0 := by
  rw [alookupD, (alookup_eq_none_iff m a).mpr h]
  rfl

theorem alookupD_atomsAdd_step (out : List (String × ℚ)) (e : String × ℚ) (a : String) :
    alookupD
      (match alookup out e.1 with
       | some v => dictSet out e.1 (v + e.2)
       | Option.none => out ++ [(e.1, e.2)]) a
      = alookupD out a + (if e.1 = a then e.2 else 0) := by
  cases h : alookup out e.1 with
  | some v =>
      simp only []
      rw [alookupD, alookup_dictSet]
      by_cases ha : a = e.1
      · subst ha
        rw [if_pos rfl, if_pos rfl, alookupD, h]
        rfl
      · rw [if_neg ha, if_neg (fun hh => ha hh.symm), add_zero]
        rfl
  | none =>
      simp only []
      rw [alookupD, alookup_append]
      by_cases ha : a = e.1
      · subst ha
        rw [h]
        simp [alookupD, h]
      · have h2 : ¬ e.1 = a := fun hh => ha hh.symm
        cases h' : alookup out a <;> simp [alookupD, h', h2]

theorem alookupD_cons (e : String × ℚ) (es : List (String × ℚ)) (k : String) :
    alookupD (e :: es) k = if e.1 = k then e.2 else alookupD es k := by
  rw [alookupD, alookup_cons]
  by_cases h : e.1 = k <;> simp [h, alookupD]

theorem alookupD_atomsAdd (out inp : List (String × ℚ)) (a : String)
    (hnd : (inp.map Prod.fst).Nodup) :
    alookupD (atomsAdd out inp) a = alookupD out a + alookupD inp a := by
  induction inp generalizing out with
  | nil => simp [atomsAdd, alookupD]
  | cons e es ih =>
      rw [List.map_cons, List.nodup_cons] at hnd
      rw [atomsAdd, List.foldl_cons, ← atomsAdd, ih _ hnd.2, alookupD_atomsAdd_step]
      by_cases ha : e.1 = a
      · subst ha
        have hes : alookupD es e.1 = 0 := by
          apply alookupD_eq_zero_of_not_mem
          intro hmem
          rcases (mem_dictKeys es e.1).mp hmem with ⟨v, hv⟩
          exact hnd.1 (List.mem_map.mpr ⟨(e.1, v), hv, rfl⟩)
        rw [if_pos rfl, hes, add_zero, alookupD_cons, if_pos rfl]
      · rw [if_neg ha, add_zero, alookupD_cons, if_neg ha]

theorem mem_includeNames_aux (l : List Species) (init : Finset String) (x : String) :
    x ∈ l.foldl (fun acc s => if s.exclude then acc else acc ∪ s.keys) init ↔
      x ∈ init ∨ ∃ s ∈ l, s.exclude = false ∧ x ∈ s.keys := by
  induction l generalizing init with
  | nil => simp
  | cons s l ih =>
      rw [List.foldl_cons, ih]
      by_cases h : s.exclude <;> simp [h, or_assoc]

theorem mem_excludeNames_aux (l : List Species) (init : Finset String) (x : String) :
    x ∈ l.foldl (fun acc s => if s.exclude then acc ∪ s.keys else acc) init ↔
      x ∈ init ∨ ∃ s ∈ l, s.exclude = true ∧ x ∈ s.keys := by
  induction l generalizing init with
  | nil => simp
  | cons s l ih =>
      rw [List.foldl_cons, ih]
      by_cases h : s.exclude <;> simp [h, or_assoc]

theorem mem_includeNames (l : List Species) (x : String) :
    x ∈ includeNames l ↔ ∃ s ∈ l, s.exclude = false ∧ x ∈ s.keys := by
  rw [includeNames, mem_includeNames_aux]
  simp

theorem mem_excludeNames (l : List Species) (x : String) :
    x ∈ excludeNames l ↔ ∃ s ∈ l, s.exclude = true ∧ x ∈ s.keys := by
  rw [excludeNames, mem_excludeNames_aux]
  simp

@[simp] theorem dictKeys_nil {α : Type} : dictKeys ([] : List (String × α)) = ∅ := rfl

@[simp] theorem dictKeys_cons {α : Type} (e : String × α) (es : List (String × α)) :
    dictKeys (e :: es) = insert e.1 (dictKeys es) := by
  simp [dictKeys]

theorem alookup_accumEntry (acc : SpcDict) (n : String) (inp : SpcProps) (n' : String) :
    alookup (accumEntry acc n inp) n' =
      if n' = n then some (combineProps ((alookup acc n).getD zeroProps) inp)
      else alookup acc n' := by
  rw [accumEntry, alookup_dictSet]

theorem getD_zeroProps_stoic (acc : SpcDict) (n : String) :
    ((alookup acc n).getD zeroProps).stoic = obsStoic acc n := by
  cases h : alookup acc n <;> simp [h, obsStoic, zeroProps]

theorem getD_zeroProps_role (acc : SpcDict) (n : String) :
    ((alookup acc n).getD zeroProps).role = obsRole acc n := by
  cases h : alookup acc n <;> simp [h, obsRole, zeroProps]

theorem getD_zeroProps_atoms (acc : SpcDict) (n : String) (a : String) :
    alookupD ((alookup acc n).getD zeroProps).atoms a = obsAtom acc n a := by
  cases h : alookup acc n <;> simp [h, obsAtom, zeroProps, alookupD]

theorem alookup_accumFold_isSome (out : Finset String) (ds : List (String × SpcProps))
    (acc : SpcDict) (n : String) :
    (alookup (ds.foldl
        (fun a e => if e.1 ∈ out then accumEntry a e.1 e.2 else a) acc) n).isSome
      ↔ (alookup acc n).isSome ∨ (n ∈ out ∧ n ∈ dictKeys ds) := by
  induction ds generalizing acc with
  | nil => simp
  | cons e es ih =>
      rw [List.foldl_cons, ih]
      by_cases he : e.1 ∈ out
      · rw [if_pos he]
        by_cases hne : n = e.1
        · subst hne
          simp [alookup_accumEntry, he]
        · rw [alookup_accumEntry, if_neg hne]
          simp only [dictKeys_cons, Finset.mem_insert]
          constructor
          · rintro (h | ⟨h1, h2⟩)
            · exact Or.inl h
            · exact Or.inr ⟨h1, Or.inr h2⟩
          · rintro (h | ⟨h1, h | h⟩)
            · exact Or.inl h
            · exact absurd h hne
            · exact Or.inr ⟨h1, h⟩
      · rw [if_neg he]
        simp only [dictKeys_cons, Finset.mem_insert]
        constructor
        · rintro (h | ⟨h1, h2⟩)
          · exact Or.inl h
          · exact Or.inr ⟨h1, Or.inr h2⟩
        · rintro (h | ⟨h1, h | h⟩)
          · exact Or.inl h
          · exact absurd (h ▸ h1) he
          · exact Or.inr ⟨h1, h⟩

theorem alookup_accumFold (out : Finset String) (ds : List (String × SpcProps))
    (acc : SpcDict) (n : String) (hn : n ∈ out) (hnd : (ds.map Prod.fst).Nodup) :
    alookup (ds.foldl
        (fun a e => if e.1 ∈ out then accumEntry a e.1 e.2 else a) acc) n =
      match alookup ds n with
      | some inp => some (combineProps ((alookup acc n).getD zeroProps) inp)
      | Option.none => alookup acc n := by
  induction ds generalizing acc with
  | nil => simp
  | cons e es ih =>
      rw [List.map_cons, List.nodup_cons] at hnd
      rw [List.foldl_cons]
      by_cases hne : e.1 = n
      · subst hne
        rw [if_pos hn]
        have hnone : alookup es e.1 = Option.none := by
          rw [alookup_eq_none_iff]
          intro hmem
          rcases (mem_dictKeys es e.1).mp hmem with ⟨v, hv⟩
          exact hnd.1 (List.mem_map.mpr ⟨(e.1, v), hv, rfl⟩)
        rw [ih _ hnd.2, hnone, alookup_cons, if_pos rfl]
        simp [alookup_accumEntry]
      · have step : (if e.1 ∈ out then accumEntry acc e.1 e.2 else acc) = acc ∨
            (∀ n', n' ≠ e.1 → alookup (if e.1 ∈ out then accumEntry acc e.1 e.2 else acc) n'
              = alookup acc n') := by
          by_cases he : e.1 ∈ out
          · refine Or.inr fun n' hn' => ?_
            rw [if_pos he, alookup_accumEntry, if_neg hn']
          · exact Or.inl (if_neg he)
        rw [ih _ hnd.2, alookup_cons, if_neg hne]
        rcases step with h | h
        · rw [h]
        · rw [h n (fun hh => hne hh.symm)]

theorem obsStoic_accumSpecies (out : Finset String) (acc : SpcDict) (s : Species)
    (n : String) (hn : n ∈ out) (hnd : (s.spc_dict.map Prod.fst).Nodup) :
    obsStoic (accumSpecies out acc s) n = obsStoic acc n + stoicAt s n := by
  rw [accumSpecies, obsStoic, alookup_accumFold out _ acc n hn hnd]
  cases h : alookup s.spc_dict n with
  | some inp =>
      simp only [Option.map_some, Option.getD_some, combineProps, getD_zeroProps_stoic,
        stoicAt, obsStoic, h]
      rfl
  | none =>
      simp [stoicAt, obsStoic, h]

theorem obsRole_accumSpecies (out : Finset String) (acc : SpcDict) (s : Species)
    (n : String) (hn : n ∈ out) (hnd : (s.spc_dict.map Prod.fst).Nodup) :
    obsRole (accumSpecies out acc s) n = (obsRole acc n).union (roleAt s n) := by
  rw [accumSpecies, obsRole, alookup_accumFold out _ acc n hn hnd]
  cases h : alookup s.spc_dict n with
  | some inp =>
      simp only [Option.map_some, Option.getD_some, combineProps, getD_zeroProps_role,
        roleAt, obsRole, h]
      rfl
  | none =>
      simp [roleAt, obsRole, h, RoleSet.union, RoleSet.none]

theorem obsAtom_accumSpecies (out : Finset String) (acc : SpcDict) (s : Species)
    (n : String) (a : String) (hn : n ∈ out) (hwf : Species.WF s) :
    obsAtom (accumSpecies out acc s) n a = obsAtom acc n a + atomAt s n a := by
  rw [accumSpecies, obsAtom, alookup_accumFold out _ acc n hn hwf.1]
  cases h : alookup s.spc_dict n with
  | some inp =>
      simp only [combineProps]
      rw [alookupD_atomsAdd _ _ _ (hwf.2 (n, inp) (alookup_some_mem h)),
        getD_zeroProps_atoms]
      simp [atomAt, obsAtom, h]
  | none =>
      simp [atomAt, obsAtom, h]

theorem obsStoic_sumFold (out : Finset String) (l : List Species) (acc : SpcDict)
    (n : String) (hn : n ∈ out)
    (hwf : ∀ s ∈ l, (s.spc_dict.map Prod.fst).Nodup) :
    obsStoic (l.foldl (accumSpecies out) acc) n =
      obsStoic acc n + (l.map (fun s => stoicAt s n)).sum := by
  induction l generalizing acc with
  | nil => simp
  | cons s l ih =>
      rw [List.foldl_cons, ih _ (fun t ht => hwf t (List.mem_cons_of_mem _ ht)),
        obsStoic_accumSpecies out acc s n hn (hwf s (List.mem_cons_self _ _)),
        List.map_cons, List.sum_cons, add_assoc]

theorem obsRole_sumFold (out : Finset String) (l : List Species) (acc : SpcDict)
    (n : String) (hn : n ∈ out)
    (hwf : ∀ s ∈ l, (s.spc_dict.map Prod.fst).Nodup) :
    obsRole (l.foldl (accumSpecies out) acc) n =
      (l.map (fun s => roleAt s n)).foldl RoleSet.union (obsRole acc n) := by
  induction l generalizing acc with
  | nil => simp
  | cons s l ih =>
      rw [List.foldl_cons, ih _ (fun t ht => hwf t (List.mem_cons_of_mem _ ht)),
        obsRole_accumSpecies out acc s n hn (hwf s (List.mem_cons_self _ _)),
        List.map_cons, List.foldl_cons]

theorem obsAtom_sumFold (out : Finset String) (l : List Species) (acc : SpcDict)
    (n : String) (a : String) (hn : n ∈ out) (hwf : ∀ s ∈ l, Species.WF s) :
    obsAtom (l.foldl (accumSpecies out) acc) n a =
      obsAtom acc n a + (l.map (fun s => atomAt s n a)).sum := by
  induction l generalizing acc with
  | nil => simp
  | cons s l ih =>
      rw [List.foldl_cons, ih _ (fun t ht => hwf t (List.mem_cons_of_mem _ ht)),
        obsAtom_accumSpecies out acc s n a hn (hwf s (List.mem_cons_self _ _)),
        List.map_cons, List.sum_cons, add_assoc]

theorem alookup_sumFold_isSome (out : Finset String) (l : List Species) (acc : SpcDict)
    (n : String) :
    (alookup (l.foldl (accumSpecies out) acc) n).isSome ↔
      (alookup acc n).isSome ∨ (n ∈ out ∧ ∃ s ∈ l, n ∈ s.keys) := by
  induction l generalizing acc with
  | nil => simp
  | cons s l ih =>
      rw [List.foldl_cons, ih, accumSpecies, alookup_accumFold_isSome]
      constructor
      · rintro ((h | ⟨h1, h2⟩) | ⟨h1, t, ht, h2⟩)
        · exact Or.inl h
        · exact Or.inr ⟨h1, s, List.mem_cons_self _ _, h2⟩
        · exact Or.inr ⟨h1, t, List.mem_cons_of_mem _ ht, h2⟩
      · rintro (h | ⟨h1, t, ht, h2⟩)
        · exact Or.inl (Or.inl h)
        · rcases List.mem_cons.mp ht with rfl | ht'
          · exact Or.inl (Or.inr ⟨h1, h2⟩)
          · exact Or.inr ⟨h1, t, ht', h2⟩

theorem dictKeys_sumFold (out : Finset String) (l : List Species)
    (hful : ∀ n ∈ out, ∃ s ∈ l, n ∈ s.keys) :
    dictKeys (l.foldl (accumSpecies out) []) = out := by
  ext n
  rw [← alookup_isSome_iff, alookup_sumFold_isSome]
  simp only [alookup_nil, Option.isSome_none, Bool.false_eq_true, false_or]
  constructor
  · rintro ⟨h, _⟩
    exact h
  · intro h
    exact ⟨h, hful n h⟩

theorem species_sum_ok_include (l : List Species) (h : netInclude l ≠ ∅) :
    species_sum l =
      Except.ok (mkSpecies (l.foldl (accumSpecies (netInclude l)) []) Option.none false) := by
  rw [species_sum, if_pos h]

theorem species_sum_ok_exclude (l : List Species) (h1 : netInclude l = ∅)
    (h2 : netExclude l ≠ ∅) :
    species_sum l =
      Except.ok (mkSpecies (l.foldl (accumSpecies (netExclude l)) []) Option.none false) := by
  rw [species_sum, if_neg (not_not_intro h1), if_pos h2]

theorem species_sum_error (l : List Species) (h1 : netInclude l = ∅)
    (h2 : netExclude l = ∅) :
    species_sum l = Except.error Err.emptyResult := by
  rw [species_sum, if_neg (not_not_intro h1), if_neg (not_not_intro h2)]

theorem exists_key_of_mem_netInclude (l : List Species) (n : String)
    (h : n ∈ netInclude l) : ∃ s ∈ l, n ∈ s.keys := by
  rcases Finset.mem_sdiff.mp h with ⟨hi, _⟩
  rcases (mem_includeNames l n).mp hi with ⟨s, hs, _, hk⟩
  exact ⟨s, hs, hk⟩

theorem exists_key_of_mem_netExclude (l : List Species) (n : String)
    (h : n ∈ netExclude l) : ∃ s ∈ l, n ∈ s.keys := by
  rcases Finset.mem_sdiff.mp h with ⟨hi, _⟩
  rcases (mem_excludeNames l n).mp hi with ⟨s, hs, _, hk⟩
  exact ⟨s, hs, hk⟩

@[simp] theorem neg_spc_dict (s : Species) : (Species.neg s).spc_dict = s.spc_dict := rfl

@[simp] theorem neg_exclude (s : Species) : (Species.neg s).exclude = true := rfl

@[simp] theorem neg_keys (s : Species) : (Species.neg s).keys = s.keys := rfl

/-- Claim C1: for every list of Species given to species_sum, the algorithm
splits the distinct component names into an include set (from operands with
exclude False) and an exclude set (from operands with exclude True), forms
net_include and net_exclude as the two set differences, and whenever at least
one of the two is non-empty returns a Species whose component-name set is
net_include with exclude False when net_include is non-empty, and otherwise
net_exclude, also with exclude False. -/
theorem species_sum_membership_partition (l : List Species)
    (h : netInclude l ≠ ∅ ∨ netExclude l ≠ ∅) :
    ∃ s, species_sum l = Except.ok s ∧ s.exclude = false ∧
      ((netInclude l ≠ ∅ ∧ s.keys = netInclude l) ∨
       (netInclude l = ∅ ∧ s.keys = netExclude l)) := by
  by_cases h1 : netInclude l = ∅
  · have h2 : netExclude l ≠ ∅ := by
      rcases h with h | h
      · exact absurd h1 h
      · exact h
    refine ⟨_, species_sum_ok_exclude l h1 h2, rfl, Or.inr ⟨h1, ?_⟩⟩
    exact dictKeys_sumFold _ _ (exists_key_of_mem_netExclude l)
  · refine ⟨_, species_sum_ok_include l h1, rfl, Or.inl ⟨h1, ?_⟩⟩
    exact dictKeys_sumFold _ _ (exists_key_of_mem_netInclude l)

/-- Witness for claim C1 at the concrete input list of the OH and HO2 species
of the source test suite. -/
theorem species_sum_membership_partition_witness :
    (netInclude [OHspc, HO2spc] ≠ ∅ ∨ netExclude [OHspc, HO2spc] ≠ ∅) ∧
    (∃ s, species_sum [OHspc, HO2spc] = Except.ok s ∧ s.exclude = false ∧
      ((netInclude [OHspc, HO2spc] ≠ ∅ ∧ s.keys = netInclude [OHspc, HO2spc]) ∨
       (netInclude [OHspc, HO2spc] = ∅ ∧ s.keys = netExclude [OHspc, HO2spc]))) :=
  ⟨Or.inl (by decide),
    species_sum_membership_partition [OHspc, HO2spc] (Or.inl (by decide))⟩

/-- Claim C4: species_sum fails with the empty-sum error exactly when both net
membership sets are empty; in particular adding a non-excluding Species to its
own negation raises the error and produces no Species. -/
theorem species_sum_empty_error :
    (∀ l : List Species,
      species_sum l = Except.error Err.emptyResult ↔
        netInclude l = ∅ ∧ netExclude l = ∅) ∧
    (∀ a : Species, a.exclude = false →
      Species.add a a.neg = Except.error Err.emptyResult) := by
  constructor
  · intro l
    constructor
    · intro h
      by_cases h1 : netInclude l = ∅
      · by_cases h2 : netExclude l = ∅
        · exact ⟨h1, h2⟩
        · rw [species_sum_ok_exclude l h1 h2] at h
          exact absurd h (by simp)
      · rw [species_sum_ok_include l h1] at h
        exact absurd h (by simp)
    · rintro ⟨h1, h2⟩
      exact species_sum_error l h1 h2
  · intro a ha
    have hinc : includeNames [a, a.neg] = a.keys := by
      ext x
      rw [mem_includeNames]
      constructor
      · rintro ⟨s, hs, hex, hk⟩
        rcases List.mem_cons.mp hs with rfl | hs'
        · exact hk
        · rcases List.mem_cons.mp hs' with rfl | hs''
          · exact absurd hex (by simp)
          · simp at hs''
      · intro hx
        exact ⟨a, List.mem_cons_self _ _, ha, hx⟩
    have hexc : excludeNames [a, a.neg] = a.keys := by
      ext x
      rw [mem_excludeNames]
      constructor
      · rintro ⟨s, hs, hex, hk⟩
        rcases List.mem_cons.mp hs with rfl | hs'
        · rw [ha] at hex
          exact absurd hex (by simp)
        · rcases List.mem_cons.mp hs' with rfl | hs''
          · exact hk
          · simp at hs''
      · intro hx
        exact ⟨a.neg, List.mem_cons_of_mem _ (List.mem_cons_self _ _), rfl, hx⟩
    rw [Species.add]
    apply species_sum_error
    · rw [netInclude, hinc, hexc, Finset.sdiff_self]
    · rw [netExclude, hinc, hexc, Finset.sdiff_self]

/-- Witness for claim C4 at the concrete non-excluding OH species. -/
theorem species_sum_empty_error_witness :
    OHspc.exclude = false ∧
    Species.add OHspc OHspc.neg = Except.error Err.emptyResult :=
  ⟨rfl, species_sum_empty_error.2 OHspc rfl⟩

theorem sumFold_props (out : Finset String) (l : List Species)
    (hwf : ∀ t ∈ l, t.WF) (n : String) (pr : SpcProps)
    (hpr : alookup (l.foldl (accumSpecies out) []) n = some pr) :
    pr.stoic = (l.map (fun t => stoicAt t n)).sum ∧
    pr.role = (l.map (fun t => roleAt t n)).foldl RoleSet.union RoleSet.none ∧
    ∀ a, alookupD pr.atoms a = (l.map (fun t => atomAt t n a)).sum := by
  have hsome : (alookup (l.foldl (accumSpecies out) []) n).isSome := by
    rw [hpr]
    rfl
  have hn : n ∈ out := by
    rcases (alookup_sumFold_isSome out l [] n).mp hsome with h | ⟨h, _⟩
    · simp at h
    · exact h
  have hwf' : ∀ t ∈ l, (t.spc_dict.map Prod.fst).Nodup := fun t ht => (hwf t ht).1
  refine ⟨?_, ?_, fun a => ?_⟩
  · have h := obsStoic_sumFold out l [] n hn hwf'
    rw [obsStoic, hpr] at h
    simpa [obsStoic, alookupD] using h
  · have h := obsRole_sumFold out l [] n hn hwf'
    rw [obsRole, hpr] at h
    simpa [obsRole] using h
  · have h := obsAtom_sumFold out l [] n a hn hwf
    rw [obsAtom, hpr] at h
    simpa [obsAtom] using h

/-- Claim C2: for every list accepted by species_sum and every component name
of the result, the record stored for that name has stoic equal to the sum of
the stoic of that component over all operands containing the name
(irrespective of the exclude flag of each operand), role equal to the union of
the role sets those operands store for the name, and atoms equal to the
per-atom-symbol sum of the atom counts those operands store for the name. -/
theorem species_sum_component_accumulation (l : List Species) (s : Species)
    (hok : species_sum l = Except.ok s) (hwf : ∀ t ∈ l, t.WF)
    (n : String) (pr : SpcProps) (hpr : alookup s.spc_dict n = some pr) :
    pr.stoic = (l.map (fun t => stoicAt t n)).sum ∧
    pr.role = (l.map (fun t => roleAt t n)).foldl RoleSet.union RoleSet.none ∧
    ∀ a, alookupD pr.atoms a = (l.map (fun t => atomAt t n a)).sum := by
  by_cases h1 : netInclude l = ∅
  · by_cases h2 : netExclude l = ∅
    · rw [species_sum_error l h1 h2] at hok
      exact absurd hok (by simp)
    · rw [species_sum_ok_exclude l h1 h2] at hok
      injection hok with hok'
      subst hok'
      exact sumFold_props _ l hwf n pr hpr
  · rw [species_sum_ok_include l h1] at hok
    injection hok with hok'
    subst hok'
    exact sumFold_props _ l hwf n pr hpr

/-- Witness for claim C2 at the concrete input list of the OH and HO2 species
and the component name OH. -/
theorem species_sum_component_accumulation_witness :
    (∀ t ∈ [OHspc, HO2spc], t.WF) ∧
    ∃ s, species_sum [OHspc, HO2spc] = Except.ok s ∧
    ∃ pr, alookup s.spc_dict "OH" = some pr ∧
      (pr.stoic = ([OHspc, HO2spc].map (fun t => stoicAt t "OH")).sum ∧
       pr.role = ([OHspc, HO2spc].map (fun t => roleAt t "OH")).foldl
         RoleSet.union RoleSet.none ∧
       ∀ a, alookupD pr.atoms a = ([OHspc, HO2spc].map (fun t => atomAt t "OH" a)).sum) :=
  ⟨by decide, _, rfl, _, rfl,
    species_sum_component_accumulation [OHspc, HO2spc] _ rfl (by decide) "OH" _ rfl⟩

theorem includeNames_sub_pair (a b : Species) (heb : b.exclude = false) :
    includeNames [b, a.neg] = b.keys := by
  ext x
  rw [mem_includeNames]
  constructor
  · rintro ⟨s, hs, hex, hk⟩
    rcases List.mem_cons.mp hs with rfl | hs'
    · exact hk
    · rcases List.mem_cons.mp hs' with rfl | hs''
      · exact absurd hex (by simp)
      · simp at hs''
  · intro hx
    exact ⟨b, List.mem_cons_self _ _, heb, hx⟩

theorem excludeNames_sub_pair (a b : Species) (heb : b.exclude = false) :
    excludeNames [b, a.neg] = a.keys := by
  ext x
  rw [mem_excludeNames]
  constructor
  · rintro ⟨s, hs, hex, hk⟩
    rcases List.mem_cons.mp hs with rfl | hs'
    · rw [heb] at hex
      exact absurd hex (by simp)
    · rcases List.mem_cons.mp hs' with rfl | hs''
      · exact hk
      · simp at hs''
  · intro hx
    exact ⟨a.neg, List.mem_cons_of_mem _ (List.mem_cons_self _ _), rfl, hx⟩

/-- Claim C3 (amended): for Species a and b, both non-excluding, with the
component-name set of a a proper subset of that of b, the subtraction b - a
returns a Species whose component-name set is the set difference, every
remaining component keeping the stoic and the per-symbol atom counts it has in
b, with the non-excluding exclude flag of b; and concretely, with HOx built as
OH + HO2 as in the source test suite, HOx - HO2 equals OH (same component
dictionary, same exclude flag).  The original claim, stated for every subset,
fails when the two component-name sets coincide: see the counterexample. -/
theorem species_sub_inverse :
    (∀ a b : Species, a.WF → b.WF → a.exclude = false → b.exclude = false →
      a.keys ⊂ b.keys →
      ∃ s, Species.sub b a = Except.ok s ∧ s.exclude = b.exclude ∧
        s.keys = b.keys \ a.keys ∧
        (∀ n pr, alookup s.spc_dict n = some pr →
          ∃ prb, alookup b.spc_dict n = some prb ∧ pr.stoic = prb.stoic ∧
            ∀ x, alookupD pr.atoms x = alookupD prb.atoms x)) ∧
    ((∃ hox, Species.add OHspc HO2spc = Except.ok hox ∧
        hox.spc_dict = HOxspc.spc_dict ∧ hox.exclude = HOxspc.exclude) ∧
     (∃ res, Species.sub HOxspc HO2spc = Except.ok res ∧
        res.spc_dict = OHspc.spc_dict ∧ res.exclude = OHspc.exclude)) := by
  constructor
  · intro a b hwfa hwfb hea heb hsub
    have hinc : includeNames [b, a.neg] = b.keys := includeNames_sub_pair a b heb
    have hexc : excludeNames [b, a.neg] = a.keys := excludeNames_sub_pair a b heb
    have hni : netInclude [b, a.neg] = b.keys \ a.keys := by
      rw [netInclude, hinc, hexc]
    have hne : netInclude [b, a.neg] ≠ ∅ := by
      rw [hni, ← Finset.nonempty_iff_ne_empty]
      exact Finset.sdiff_nonempty.mpr hsub.not_subset
    have hwfl : ∀ t ∈ [b, a.neg], t.WF := by
      intro t ht
      rcases List.mem_cons.mp ht with rfl | ht'
      · exact hwfb
      · rcases List.mem_cons.mp ht' with rfl | ht''
        · exact hwfa
        · simp at ht''
    rw [Species.sub, Species.add]
    refine ⟨_, species_sum_ok_include _ hne, by rw [heb]; rfl, ?_, ?_⟩
    · have hk := dictKeys_sumFold (netInclude [b, a.neg]) [b, a.neg]
        (exists_key_of_mem_netInclude _)
      rw [← hni]
      exact hk
    · intro n pr hpr
      have hpr' : alookup ([b, a.neg].foldl (accumSpecies (netInclude [b, a.neg])) []) n
          = some pr := hpr
      have hsome : (alookup ([b, a.neg].foldl (accumSpecies (netInclude [b, a.neg])) []) n).isSome := by
        rw [hpr']
        rfl
      have hn : n ∈ netInclude [b, a.neg] := by
        rcases (alookup_sumFold_isSome _ _ [] n).mp hsome with h | ⟨h, _⟩
        · simp at h
        · exact h
      have hnb : n ∈ b.keys := by
        rw [hni] at hn
        exact (Finset.mem_sdiff.mp hn).1
      have hna : n ∉ a.keys := by
        rw [hni] at hn
        exact (Finset.mem_sdiff.mp hn).2
      have hnone : alookup a.spc_dict n = Option.none := by
        rw [alookup_eq_none_iff]
        exact hna
      rcases Option.isSome_iff_exists.mp ((alookup_isSome_iff b.spc_dict n).mpr hnb)
        with ⟨prb, hprb⟩
      rcases sumFold_props _ _ hwfl n pr hpr' with ⟨hst, _, hat⟩
      refine ⟨prb, hprb, ?_, fun x => ?_⟩
      · rw [hst]
        simp [stoicAt, obsStoic, hprb, hnone]
      · rw [hat x]
        simp [atomAt, obsAtom, hprb, hnone]
  · constructor
    · refine ⟨_, rfl, ?_, rfl⟩
      simp [Species.add, species_sum, netInclude, netExclude,
        includeNames, excludeNames, Species.keys, dictKeys, mkSpecies,
        accumSpecies, accumEntry, combineProps, alookup, dictSet, atomsAdd,
        zeroProps, RoleSet.union, RoleSet.full, RoleSet.none, OHspc, HO2spc, HOxspc]
    · refine ⟨_, rfl, ?_, rfl⟩
      simp [Species.sub, Species.add, species_sum, netInclude, netExclude,
        includeNames, excludeNames, Species.keys, dictKeys, Species.neg, mkSpecies,
        accumSpecies, accumEntry, combineProps, alookup, dictSet, atomsAdd,
        zeroProps, RoleSet.union, RoleSet.full, RoleSet.none, OHspc, HO2spc, HOxspc]

/-- Witness for claim C3 applying the general inverse law at the concrete OH
and HOx species of the source test suite. -/
theorem species_sub_inverse_witness :
    (OHspc.WF ∧ HOxspc.WF ∧ OHspc.exclude = false ∧ HOxspc.exclude = false ∧
      OHspc.keys ⊂ HOxspc.keys) ∧
    (∃ s, Species.sub HOxspc OHspc = Except.ok s ∧ s.exclude = HOxspc.exclude ∧
      s.keys = HOxspc.keys \ OHspc.keys ∧
      (∀ n pr, alookup s.spc_dict n = some pr →
        ∃ prb, alookup HOxspc.spc_dict n = some prb ∧ pr.stoic = prb.stoic ∧
          ∀ x, alookupD pr.atoms x = alookupD prb.atoms x)) :=
  ⟨⟨by decide, by decide, rfl, rfl, by decide⟩,
    species_sub_inverse.1 OHspc HOxspc (by decide) (by decide) rfl rfl (by decide)⟩

/-- Counterexample for claim C3 as stated: with a and b both equal to OH the
component-name set of a is a subset of that of b, yet the subtraction raises
the empty-sum error instead of returning a Species with the empty difference
as its component-name set. -/
theorem species_sub_inverse_counterexample :
    OHspc.keys ⊆ OHspc.keys ∧ OHspc.exclude = false ∧
    Species.sub OHspc OHspc = Except.error Err.emptyResult :=
  ⟨by decide, rfl, rfl⟩

theorem alookup_map_value {α β : Type} (m : List (String × α)) (f : α → β) (k : String) :
    alookup (m.map (fun e => (e.1, f e.2))) k = (alookup m k).map f := by
  induction m with
  | nil => simp
  | cons e es ih =>
      by_cases h : e.1 = k <;> simp [h, ih]

/-- Claim C7: for every Species s and every numeric scalar k, both s * k and
k * s return a Species with every component stoic multiplied by k, atoms and
roles unchanged, and exclude equal to the truth value of k ≤ 0; multiplying by
any non-numeric operand fails with the invalid-operand error. -/
theorem species_scalar_mul :
    (∀ (s : Species) (k : ℚ),
      ∃ t, s.mul (PyVal.num k) = Except.ok t ∧
        Species.rmul (PyVal.num k) s = Except.ok t ∧
        t.exclude = decide (k ≤ 0) ∧
        (∀ n, alookup t.spc_dict n =
          (alookup s.spc_dict n).map (fun pr => { pr with stoic := pr.stoic * k }))) ∧
    (∀ (s : Species) (tag : String),
      s.mul (PyVal.obj tag) = Except.error Err.invalidOperand) := by
  constructor
  · intro s k
    refine ⟨_, rfl, rfl, rfl, fun n => ?_⟩
    exact alookup_map_value s.spc_dict (fun pr => { pr with stoic := pr.stoic * k }) n
  · intro s tag
    rfl

/-- Claim C8 (amended): negation returns a Species whose components are
identical to those of s and whose name is the name of s wrapped as -(name),
but the exclude flag is set to True unconditionally, so it is flipped only
when s was non-excluding; negating an already-excluding Species yields an
excluding one again.  The original flipped-flag claim fails on an excluding
input: see the counterexample. -/
theorem species_neg_behavior :
    ∀ s : Species, (s.neg).spc_dict = s.spc_dict ∧ (s.neg).exclude = true ∧
      (s.neg).name = "-(" ++ s.name ++ ")" :=
  fun _ => ⟨rfl, rfl, rfl⟩

/-- Counterexample for claim C8 as stated: negating the concrete excluding
species OHexc yields exclude True again, not the flipped flag False. -/
theorem species_neg_behavior_counterexample :
    OHexc.exclude = true ∧ (OHexc.neg).exclude = true ∧
    (OHexc.neg).exclude ≠ (!OHexc.exclude) :=
  ⟨rfl, rfl, by decide⟩

/-- Claim C10: whenever subset extraction a[p] succeeds, the exclude flag of
the result equals the exclude flag of the probe and is independent of the
exclude flag of a; extraction through a bare-name string key, which builds a
non-excluding full-role probe, always yields a non-excluding Species. -/
theorem getitem_exclude_from_probe :
    (∀ a p s : Species, a.getitem p = Except.ok s → s.exclude = p.exclude) ∧
    (∀ (a : Species) (key : String) (s : Species),
      a.getitemStr key = Except.ok s → s.exclude = false) := by
  have h1 : ∀ a p s : Species, a.getitem p = Except.ok s → s.exclude = p.exclude := by
    intro a p s h
    rw [Species.getitem] at h
    split at h
    · exact absurd h (by simp)
    · injection h with h'
      subst h'
      rfl
  refine ⟨h1, fun a key s h => h1 a _ s h⟩

/-- Witness for claim C10: extracting the OH component from the excluding
aggregate OHexc by its bare name succeeds and yields a non-excluding
Species. -/
theorem getitem_exclude_from_probe_witness :
    OHexc.exclude = true ∧
    ∃ s, OHexc.getitemStr "OH" = Except.ok s ∧ s.exclude = false :=
  ⟨rfl, _, rfl, getitem_exclude_from_probe.2 OHexc "OH" _ rfl⟩

theorem mem_map_fst {α : Type} (m : List (String × α)) (n : String) :
    n ∈ m.map Prod.fst ↔ ∃ v, (n, v) ∈ m := by
  rw [List.mem_map]
  constructor
  · rintro ⟨⟨a, b⟩, h, rfl⟩
    exact ⟨b, h⟩
  · rintro ⟨v, h⟩
    exact ⟨(n, v), h, rfl⟩

theorem mem_filter_map_fst {α : Type} (m : List (String × α)) (q : String × α → Bool)
    (n : String) :
    n ∈ (m.filter q).map Prod.fst ↔ ∃ v, (n, v) ∈ m ∧ q (n, v) = true := by
  rw [mem_map_fst]
  constructor
  · rintro ⟨v, hv⟩
    rw [List.mem_filter] at hv
    exact ⟨v, hv.1, hv.2⟩
  · rintro ⟨r, h1, h2⟩
    exact ⟨r, List.mem_filter.mpr ⟨h1, h2⟩⟩

theorem mem_rxn_side (dict : RxnDict) (l : List Species) (p : Reaction → Species → Bool)
    (n : String) :
    (n ∈ if l ≠ [] then (dict.filter (fun e => l.all (fun sp => p e.2 sp))).map Prod.fst
         else dict.map Prod.fst) ↔
      ∃ r, (n, r) ∈ dict ∧ ∀ sp ∈ l, p r sp = true := by
  by_cases hl : l = []
  · subst hl
    simp [mem_map_fst]
  · rw [if_pos hl, mem_filter_map_fst]
    simp [List.all_eq_true]

theorem mem_find_rxns (dict : RxnDict) (reactants products : List Species)
    (logical_and : Bool) (n : String) :
    n ∈ find_rxns dict reactants products logical_and ↔
      (if logical_and then
        (∃ r, (n, r) ∈ dict ∧ ∀ sp ∈ reactants, r.has_rct sp = true) ∧
        (∃ r, (n, r) ∈ dict ∧ ∀ sp ∈ products, r.has_prd sp = true)
      else
        (∃ r, (n, r) ∈ dict ∧ ∀ sp ∈ reactants, r.has_rct sp = true) ∨
        (∃ r, (n, r) ∈ dict ∧ ∀ sp ∈ products, r.has_prd sp = true)) := by
  rw [find_rxns]
  rw [(List.perm_insertionSort _ _).mem_iff, List.mem_dedup]
  cases logical_and with
  | false =>
      rw [if_neg (by decide : ¬(false = true)), if_neg (by decide : ¬(false = true)),
        List.mem_append,
        mem_rxn_side dict reactants (fun r sp => r.has_rct sp) n,
        mem_rxn_side dict products (fun r sp => r.has_prd sp) n]
  | true =>
      rw [if_pos (by decide : (true = true)), if_pos (by decide : (true = true)),
        List.mem_filter]
      rw [show ∀ rr : List String, (rr.contains n = true) = (n ∈ rr) from
        fun rr => by simp [List.contains, List.elem_iff]]
      rw [mem_rxn_side dict reactants (fun r sp => r.has_rct sp) n,
        mem_rxn_side dict products (fun r sp => r.has_prd sp) n]

/-- Claim C5: find_rxns is conjunctive within each filter list; an empty list
matches every reaction; the two partial results are combined by set
intersection when logical_and is true and by set union when it is false; the
returned list is sorted ascending with no duplicate, and repeating the same
query on an unchanged dictionary yields the identical list. -/
theorem find_rxns_query_semantics (dict : RxnDict) (reactants products : List Species) :
    (∀ n, n ∈ find_rxns dict reactants products true ↔
      ((∃ r, (n, r) ∈ dict ∧ ∀ sp ∈ reactants, r.has_rct sp = true) ∧
       (∃ r, (n, r) ∈ dict ∧ ∀ sp ∈ products, r.has_prd sp = true))) ∧
    (∀ n, n ∈ find_rxns dict reactants products false ↔
      ((∃ r, (n, r) ∈ dict ∧ ∀ sp ∈ reactants, r.has_rct sp = true) ∨
       (∃ r, (n, r) ∈ dict ∧ ∀ sp ∈ products, r.has_prd sp = true))) ∧
    (∀ b, (find_rxns dict reactants products b).Sorted (· ≤ ·) ∧
      (find_rxns dict reactants products b).Nodup ∧
      find_rxns dict reactants products b = find_rxns dict reactants products b) := by
  refine ⟨fun n => ?_, fun n => ?_, fun b => ⟨?_, ?_, rfl⟩⟩
  · rw [mem_find_rxns, if_pos rfl]
  · rw [mem_find_rxns, if_neg (by simp)]
  · exact List.sorted_insertionSort _ _
  · exact ((List.perm_insertionSort _ _).symm.nodup (List.nodup_dedup _))

/-- Witness for claim C5 applying the conjunctive-query characterization at a
concrete two-reaction dictionary. -/
theorem find_rxns_query_semantics_witness :
    "R1" ∈ find_rxns [("R1", rxnOH), ("R3", rxnNone)] [OHspc] [] true ↔
      ((∃ r, ("R1", r) ∈ [("R1", rxnOH), ("R3", rxnNone)] ∧
        ∀ sp ∈ [OHspc], r.has_rct sp = true) ∧
       (∃ r, ("R1", r) ∈ [("R1", rxnOH), ("R3", rxnNone)] ∧
        ∀ sp ∈ ([] : List Species), r.has_prd sp = true)) :=
  (find_rxns_query_semantics [("R1", rxnOH), ("R3", rxnNone)] [OHspc] []).1 "R1"

theorem find_rxns_subset_keys (dict : RxnDict) (reactants products : List Species)
    (logical_and : Bool) (n : String)
    (h : n ∈ find_rxns dict reactants products logical_and) :
    (alookup dict n).isSome := by
  rw [alookup_isSome_iff, mem_dictKeys]
  have h' := (mem_find_rxns dict reactants products logical_and n).mp h
  cases logical_and
  · rcases h' with ⟨r, hr, _⟩ | ⟨r, hr, _⟩ <;> exact ⟨r, hr⟩
  · rcases h'.1 with ⟨r, hr, _⟩
    exact ⟨r, hr⟩

theorem evalSumAux_ok (radd : Reaction → Reaction → Reaction) (env : RxnDict)
    (r0 : Reaction) (ns : List String) (h : ∀ n ∈ ns, (alookup env n).isSome) :
    evalSumAux radd env r0 ns =
      Except.ok ((ns.filterMap (alookup env)).foldl radd r0) := by
  induction ns generalizing r0 with
  | nil => rfl
  | cons n ns ih =>
      rcases Option.isSome_iff_exists.mp (h n (List.mem_cons_self _ _)) with ⟨r, hr⟩
      rw [evalSumAux, lookupRxn, hr, List.filterMap_cons, hr, List.foldl_cons]
      exact ih (radd r0 r) (fun m hm => h m (List.mem_cons_of_mem _ hm))

/-- Claim C6 (amended): when the query of make_net_rxn matches no reactions,
the evaluation of the joined expression, which is the empty string, fails with
a SyntaxError rather than the EmptyResult domain error the specification
describes, and no Reaction is returned; when the match set is non-empty, the
single Reaction obtained by summing the matched reactions left to right with
the external Reaction addition is returned. -/
theorem make_net_rxn_empty_query (radd : Reaction → Reaction → Reaction)
    (dict : RxnDict) (reactants products : List Species) (logical_and : Bool) :
    (find_rxns dict reactants products logical_and = [] →
      make_net_rxn radd dict reactants products logical_and =
        Except.error Err.syntaxError) ∧
    (find_rxns dict reactants products logical_and ≠ [] →
      ∃ r0 rs,
        (find_rxns dict reactants products logical_and).filterMap (alookup dict)
          = r0 :: rs ∧
        make_net_rxn radd dict reactants products logical_and =
          Except.ok (rs.foldl radd r0)) := by
  constructor
  · intro h
    rw [make_net_rxn, h]
    rfl
  · intro h
    rcases hn : find_rxns dict reactants products logical_and with _ | ⟨n, ns⟩
    · exact absurd hn h
    · have hkeys : ∀ m ∈ n :: ns, (alookup dict m).isSome := by
        intro m hm
        exact find_rxns_subset_keys dict reactants products logical_and m (hn ▸ hm)
      rcases Option.isSome_iff_exists.mp (hkeys n (List.mem_cons_self _ _)) with ⟨r, hr⟩
      refine ⟨r, ns.filterMap (alookup dict), ?_, ?_⟩
      · rw [List.filterMap_cons, hr]
      · rw [make_net_rxn, hn, evalSumExpr, lookupRxn, hr]
        exact evalSumAux_ok radd dict r ns
          (fun m hm => hkeys m (List.mem_cons_of_mem _ hm))

/-- Witness for claim C6 applying the non-empty branch at a concrete
dictionary with one matching reaction. -/
theorem make_net_rxn_empty_query_witness :
    find_rxns [("R1", rxnOH)] [OHspc] [] true ≠ [] ∧
    (∃ r0 rs,
      (find_rxns [("R1", rxnOH)] [OHspc] [] true).filterMap (alookup [("R1", rxnOH)])
        = r0 :: rs ∧
      make_net_rxn raddLeft [("R1", rxnOH)] [OHspc] [] true =
        Except.ok (rs.foldl raddLeft r0)) :=
  ⟨by decide,
    (make_net_rxn_empty_query raddLeft [("R1", rxnOH)] [OHspc] [] true).2 (by decide)⟩

/-- Counterexample for claim C6 as stated: a query that matches no reactions
makes make_net_rxn fail with the syntax error of evaluating the empty joined
expression, not with the EmptyResult domain error. -/
theorem make_net_rxn_empty_query_counterexample :
    find_rxns [("R1", rxnNone)] [OHspc] [] true = [] ∧
    make_net_rxn raddLeft [("R1", rxnNone)] [OHspc] [] true ≠
      Except.error Err.emptyResult := by
  refine ⟨rfl, fun h => ?_⟩
  rw [show make_net_rxn raddLeft [("R1", rxnNone)] [OHspc] [] true
      = Except.error Err.syntaxError from rfl] at h
  injection h with h2
  exact Err.noConfusion h2

/-- Claim C9 (code bug in the source): the atom_guess scan counts an atom
occurrence only when at least one digit follows it, because the multiplicity
group of its regex requires one to ten digits, so a name of bare atom symbols
yields an empty mapping; the claimed behavior, an optional digit string
defaulting to 1, modelled by atom_guess_spec, gives one per bare occurrence.
Occurrences followed by digits agree between the two. -/
theorem atom_guess_requires_digit :
    atom_guess_scan ["O", "H"] "OH" = [] ∧
    atom_guess_spec ["O", "H"] "OH" = [("O", 1), ("H", 1)] ∧
    atom_guess_scan ["O", "H"] "H2O2" = [("H", 2), ("O", 2)] ∧
    atom_guess_spec ["O", "H"] "H2O2" = [("H", 2), ("O", 2)] := by
  refine ⟨?_, ?_, ?_, ?_⟩ <;> rfl

end Permm
